import Mathlib

/-!
Shallow embedding of the composite-record layer of pystachio
(src/pystachio/composite.py): schemas of typed fields, immutable struct
values, construction and functional update, type checking, scope-chained
placeholder interpolation with unbound-name tracking, path lookup, schema
(de)serialization and JSON ingestion.

Field values of struct types are, in the source, instances of collaborator
classes (String and friends from base.py, which is not part of the core
file). They are embedded here as template strings: lists of chunks, each
chunk either literal text or a placeholder reference. Scope frames bind
names to values; a struct value carries its attached outer frames.
-/

namespace PystachioModel

/-- One chunk of a template string: literal text or a placeholder
reference (written in the source syntax as a mustache-style variable). -/
inductive Chunk where
  | text : String → Chunk
  | ref : String → Chunk
deriving DecidableEq, Repr

/-- A template string: a list of chunks. -/
abbrev Template := List Chunk

mutual
/-- The wrapped field type of a schema entry: either a simple
(string-like) type, or a struct type given by its class name and
schema. Mirrors the klazz slot of TypeSignature in composite.py. -/
inductive FType where
  | simple : FType
  | strct : String → List (String × TypeSig) → FType

/-- TypeSignature from composite.py: wrapped type, required flag, and an
optional default. Defaults are, per the signature-construction invariant,
already coerced instances of the wrapped type; the model restricts
defaults to simple-typed values and stores the template of the instance. -/
inductive TypeSig where
  | mk : FType → Bool → Option Template → TypeSig
end

/-- Wrapped type of a signature (the klazz property). -/
def TypeSig.klazz : TypeSig → FType
  | .mk t _ _ => t

/-- Required flag of a signature. -/
def TypeSig.required : TypeSig → Bool
  | .mk _ r _ => r

/-- Default of a signature: none models the Empty sentinel. -/
def TypeSig.default : TypeSig → Option Template
  | .mk _ _ d => d

/-- A schema: the TYPEMAP of a struct class, an association list from
field name to type signature. -/
abbrev Schema := List (String × TypeSig)

/-- Values of the object layer. A str value is a template together with
its attached scope frames; a strct value carries its class name, its
schema (TYPEMAP), its field mapping (None models the Empty sentinel) and
its attached scope frames. Frames bind names to objects. -/
inductive Obj where
  | str : Template → List (List (String × Obj)) → Obj
  | strct : String → Schema → List (String × Option Obj) →
      List (List (String × Obj)) → Obj

/-- A scope frame: bindings from names to objects (the Environment
collaborator, modelled as an association list). -/
abbrev Frame := List (String × Obj)

/-- A field mapping of a struct value: field name to value-or-Empty. -/
abbrev Mapping := List (String × Option Obj)

/-- Association-list lookup, first binding wins (models dict lookup). -/
def alookup {α : Type} : List (String × α) → String → Option α
  | [], _ => none
  | (k, v) :: rest, n => if k = n then some v else alookup rest n

/-- Association-list update in place: replace the binding of a present
key, keeping its position (models dict item assignment on a dict whose
key set already contains the key; appends when absent). -/
def assocSet {α : Type} : List (String × α) → String → α → List (String × α)
  | [], n, v => [(n, v)]
  | (k, w) :: rest, n, v =>
      if k = n then (k, v) :: rest else (k, w) :: assocSet rest n v

/-- Names bound by one frame. -/
def frameNames (f : Frame) : Finset String :=
  f.foldr (fun p acc => insert p.1 acc) ∅

/-- Names bound anywhere in a scope chain. -/
def chainNames (c : List Frame) : Finset String :=
  c.foldr (fun f acc => frameNames f ∪ acc) ∅

/-- Scope-chain lookup: frames are consulted in order (innermost first),
within a frame the first binding wins. -/
def lookupChain : List Frame → String → Option Obj
  | [], _ => none
  | f :: rest, n =>
      match alookup f n with
      | some o => some o
      | none => lookupChain rest n

theorem alookup_isSome_mem_frameNames (f : Frame) (n : String)
    (h : (alookup f n).isSome) : n ∈ frameNames f := by
  induction f with
  | nil => simp [alookup] at h
  | cons p rest ih =>
      by_cases hk : p.1 = n
      · simp [frameNames, hk]
      · simp only [frameNames, List.foldr_cons, Finset.mem_insert]
        right
        have : (alookup rest n).isSome := by
          obtain ⟨k, v⟩ := p
          simpa [alookup, hk] using h
        exact ih this

theorem lookupChain_mem_chainNames (c : List Frame) (n : String) (o : Obj)
    (h : lookupChain c n = some o) : n ∈ chainNames c := by
  induction c with
  | nil => simp [lookupChain] at h
  | cons f rest ih =>
      simp only [lookupChain] at h
      simp only [chainNames, List.foldr_cons, Finset.mem_union]
      cases hf : alookup f n with
      | some w =>
          left
          exact alookup_isSome_mem_frameNames f n (by simp [hf])
      | none =>
          right
          rw [hf] at h
          exact ih h

/-- Rendering of a template back to raw text, with unresolved
placeholders kept in source syntax. -/
def renderTemplate : Template → String
  | [] => ""
  | .text s :: rest => s ++ renderTemplate rest
  | .ref n :: rest => "\x7b\x7b" ++ n ++ "\x7d\x7d" ++ renderTemplate rest

/-- Textual stand-in for the raw stringification a scope lookup applies
when a placeholder resolves to a struct value (out of scope of the core
file; any total rendering serves, no claim depends on its exact text). -/
def rawRender : Obj → String
  | .str t _ => renderTemplate t
  | .strct nm _ _ _ => nm ++ "(...)"

/-- Normalization of a template: drop empty text chunks and merge
adjacent text chunks, so that a fully resolved template is one literal
chunk (the joined string a string interpolation produces). -/
def normTemplate : Template → Template
  | [] => []
  | .ref n :: rest => .ref n :: normTemplate rest
  | .text s :: rest =>
      match normTemplate rest with
      | .text s2 :: r2 => if s ++ s2 = "" then r2 else .text (s ++ s2) :: r2
      | r => if s = "" then r else .text s :: r

/-- Measure for the placeholder-resolution recursion: names bound in the
chain and not yet on the active resolution path. -/
def resGas (c : List Frame) (S : Finset String) : Nat :=
  (chainNames c \ S).card

theorem resGas_lt (c : List Frame) (S : Finset String) (n : String)
    (hmem : n ∈ chainNames c) (hnot : n ∉ S) :
    resGas c (insert n S) < resGas c S := by
  apply Finset.card_lt_card
  constructor
  · intro x hx
    rcases Finset.mem_sdiff.mp hx with ⟨hx1, hx2⟩
    exact Finset.mem_sdiff.mpr ⟨hx1, fun hxS => hx2 (Finset.mem_insert_of_mem hxS)⟩
  · intro hsub
    have hn : n ∈ chainNames c \ S := Finset.mem_sdiff.mpr ⟨hmem, hnot⟩
    have := hsub hn
    rcases Finset.mem_sdiff.mp this with ⟨_, hni⟩
    exact hni (Finset.mem_insert_self n S)

mutual
/-- Modelled from the spec: placeholder resolution for template strings
(the string-interpolation collaborator, base.py and parser, absent from
src). Resolution of the name n consults the chain innermost-first; a name
already being resolved on the active call path (member of resolving) is
treated as unbound, which is the cycle policy of section 4.5; a binding
to a template is itself resolved transitively in the same chain; a
binding to a struct value resolves to its raw rendering. -/
def resolveRef (c : List Frame) (resolving : Finset String) (n : String) :
    Option (Template × Finset String) :=
  if hres : n ∈ resolving then none
  else
    match h : lookupChain c n with
    | none => none
    | some (.strct nm sch mp sc) => some ([.text (rawRender (.strct nm sch mp sc))], ∅)
    | some (.str t _) =>
        have hmem : n ∈ chainNames c := lookupChain_mem_chainNames c n _ h
        some (interpTemplate c (insert n resolving) t)
termination_by (resGas c resolving, 0)
decreasing_by
  exact Prod.Lex.left _ _ (resGas_lt c resolving n hmem hres)

/-- Modelled from the spec: interpolation of a template against a scope
chain. Literal chunks pass through; a resolvable placeholder is replaced
by its resolved template; an unresolvable one is kept and its name is
collected as unbound. -/
def interpTemplate (c : List Frame) (resolving : Finset String) :
    Template → Template × Finset String
  | [] => ([], ∅)
  | .text s :: rest =>
      let p := interpTemplate c resolving rest
      (.text s :: p.1, p.2)
  | .ref n :: rest =>
      let p := interpTemplate c resolving rest
      match resolveRef c resolving n with
      | none => (.ref n :: p.1, insert n p.2)
      | some (cs, ub) => (cs ++ p.1, ub ∪ p.2)
termination_by t => (resGas c resolving, t.length + 1)
decreasing_by
  all_goals exact Prod.Lex.right _ (by simp)
end

mutual
/-- Structural equality test on wrapped field types. Two struct types are
the same class exactly when name and schema coincide. -/
def beqFType : FType → FType → Bool
  | .simple, .simple => true
  | .strct n fs, .strct n2 fs2 => n == n2 && beqSchemaList fs fs2
  | _, _ => false

/-- Structural equality test on type signatures. -/
def beqTypeSig : TypeSig → TypeSig → Bool
  | .mk t r d, .mk t2 r2 d2 => beqFType t t2 && r == r2 && d == d2

/-- Structural equality test on schema lists, order-sensitive. -/
def beqSchemaList : List (String × TypeSig) → List (String × TypeSig) → Bool
  | [], [] => true
  | (k, s) :: rest, (k2, s2) :: rest2 =>
      k == k2 && beqTypeSig s s2 && beqSchemaList rest rest2
  | _, _ => false
end

/-- Insertion into a key-sorted association list. -/
def insertByKey {α : Type} (p : String × α) : List (String × α) → List (String × α)
  | [] => [p]
  | q :: rest => if p.1 ≤ q.1 then p :: q :: rest else q :: insertByKey p rest

/-- Key-sort of an association list; the canonical field order of
type_parameters in composite.py is sorted by field name. -/
def sortByKey {α : Type} : List (String × α) → List (String × α)
  | [] => []
  | p :: rest => insertByKey p (sortByKey rest)

mutual
/-- Canonical form of a wrapped type: nested schemas sorted by field
name, mirroring the sorted serialize_type descriptor a struct class
produces through type_parameters. -/
def canonFType : FType → FType
  | .simple => .simple
  | .strct n fs => .strct n (sortByKey (canonSchema fs))

/-- Canonical form of a type signature. -/
def canonSig : TypeSig → TypeSig
  | .mk t r d => .mk (canonFType t) r d

/-- Canonical form of each signature in a schema list. -/
def canonSchema : List (String × TypeSig) → List (String × TypeSig)
  | [] => []
  | (k, s) :: rest => (k, canonSig s) :: canonSchema rest
end

/-- Equality of type signatures as TypeSignature.__eq__ defines it:
serialized wrapped-type descriptors, required flags, defaults and
emptiness all agree. Descriptor equality is canonical-form equality. -/
def sigEq (a b : TypeSig) : Bool :=
  beqTypeSig (canonSig a) (canonSig b)

/-- Equality of two TYPEMAPs as the dict comparison in __eq__ performs
it: order-insensitive, with TypeSignature.__eq__ on the entries. -/
def typemapEq (a b : Schema) : Bool :=
  beqSchemaList (sortByKey (canonSchema a)) (sortByKey (canonSchema b))

/-- The isinstance test a schema attribute applies before coercing: a
str value is an instance of the simple wrapped type, a strct value of
its own class only. -/
def isinstanceOf : Obj → FType → Bool
  | .str _ _, .simple => true
  | .strct n sch _ _, .strct n2 sch2 => n == n2 && beqSchemaList sch sch2
  | _, _ => false

/-- The self-scope of a struct value: its non-Empty fields, as built at
the head of Structural.scopes. -/
def selfFrame (mp : Mapping) : Frame :=
  mp.filterMap (fun p => p.2.map (fun o => (p.1, o)))

/-- Object.in_scope modelled from the spec: attach extra outer frames
after the scopes the value already carries. -/
def inScope (o : Obj) (fs : List Frame) : Obj :=
  match o with
  | .str t sc => .str t (sc ++ fs)
  | .strct nm sch mp sc => .strct nm sch mp (sc ++ fs)

mutual
/-- Interpolation of a value viewed in extra outer frames, the embedding
of value.in_scope(*extra).interpolate(). A str value resolves its
template against its scope chain. A strct value follows
Structural.interpolate: each Empty field stays Empty, each present field
is interpolated in the full chain (self-scope first, then the attached
frames), the results are rebuilt into a fresh value of the same class,
and the unbound names of all fields are unioned. -/
def interpObj : Obj → List Frame → Obj × Finset String
  | .str t sc, extra =>
      let p := interpTemplate (sc ++ extra) ∅ t
      (.str (normTemplate p.1) [], p.2)
  | .strct nm sch mp sc, extra =>
      let chain := selfFrame mp :: (sc ++ extra)
      let p := interpFields mp chain
      (.strct nm sch p.1 [], p.2)

/-- Field-by-field interpolation pass over a struct mapping. -/
def interpFields : Mapping → List Frame → Mapping × Finset String
  | [], _ => ([], ∅)
  | (k, none) :: rest, chain =>
      let p := interpFields rest chain
      ((k, none) :: p.1, p.2)
  | (k, some o) :: rest, chain =>
      let q := interpObj o chain
      let p := interpFields rest chain
      ((k, some q.1) :: p.1, q.2 ∪ p.2)
end

/-- Check result: the TypeCheck collaborator, success or failure with a
message; always an ordinary value, never a thrown signal. -/
inductive TypeCheck where
  | success : TypeCheck
  | failure : String → TypeCheck
deriving DecidableEq, Repr

mutual
/-- Type check of a value viewed in extra outer frames. A str value
checks by interpolating in its chain and failing on unbound names
(modelled from the spec: the leaf check collaborator of base.py). A
strct value follows Structural.check over its schema fields. -/
def checkObj : Obj → List Frame → TypeCheck
  | .str t sc, extra =>
      if (interpTemplate (sc ++ extra) ∅ t).2 = ∅ then .success
      else .failure ("uninterpolated variables")
  | .strct nm sch mp sc, extra =>
      checkFields nm sch (selfFrame mp :: (sc ++ extra)) mp

/-- The field loop of Structural.check: a required Empty field fails at
once naming type and field; a present field is checked in the full
scope chain and a failure is wrapped with type and field name. Iteration
is over the field mapping, whose keys and order agree with the TYPEMAP
under the schema-closure invariant. -/
def checkFields (nm : String) (sch : Schema) (chain : List Frame) :
    Mapping → TypeCheck
  | [] => .success
  | (k, none) :: rest =>
      if (match alookup sch k with
          | some sig => sig.required
          | none => false) then
        .failure (nm ++ "[" ++ k ++ "] is required.")
      else checkFields nm sch chain rest
  | (k, some o) :: rest =>
      match checkObj o chain with
      | .success => checkFields nm sch chain rest
      | .failure m => .failure (nm ++ "[" ++ k ++ "] failed: " ++ m)
end

/-- One segment of a path reference: a plain field dereference or a
different addressing mode (an indexing step). -/
inductive RefAction where
  | deref : String → RefAction
  | index : String → RefAction
deriving DecidableEq, Repr

/-- A structured path reference: its list of segments. -/
abbrev PathRef := List RefAction

/-- The three distinct error outcomes of Structural.find. -/
inductive FindError where
  | namingError : FindError
  | notFound : FindError
  | unnamable : FindError
deriving DecidableEq, Repr

/-- Structural.find of a value viewed in extra outer frames. A first
segment that is not a plain dereference (an indexing segment, or an
exhausted reference) is a naming error; a name outside the schema or
bound to Empty is not-found; an exhausted remaining path returns the
field value placed into the scope chain; descending into a value that is
not path-addressable (a str leaf) is unnamable, and into a struct value
recurses with the remaining path. -/
def findObj : Obj → List Frame → PathRef → Except FindError Obj
  | _, _, [] => .error .namingError
  | .str _ _, _, _ :: _ => .error .unnamable
  | .strct _ _ _ _, _, .index _ :: _ => .error .namingError
  | .strct _ sch mp sc, extra, .deref n :: rest =>
      if (alookup sch n).isNone then .error .notFound
      else
        match alookup mp n with
        | some (some o) =>
            let chain := selfFrame mp :: (sc ++ extra)
            match rest with
            | [] => .ok (inScope o chain)
            | r2 :: rrest =>
                match o with
                | .str _ _ => .error .unnamable
                | .strct nm2 sch2 mp2 sc2 =>
                    findObj (.strct nm2 sch2 mp2 sc2) chain (r2 :: rrest)
        | _ => .error .notFound
termination_by _ _ r => r.length
decreasing_by
  simp

/-- A raw (not yet wrapped) construction input: a primitive value, kept
as its template text, or a map-shaped value with named entries. -/
inductive RawIn where
  | prim : Template → RawIn
  | dict : List (String × RawIn) → RawIn

/-- A value supplied for one field at construction or update: the Empty
sentinel, an already wrapped object, or a raw value to coerce. -/
inductive InVal where
  | empty : InVal
  | obj : Obj → InVal
  | raw : RawIn → InVal

/-- One positional argument of apply: a map of named entries, or a value
that is not map-shaped. -/
inductive PosArg where
  | mapArg : List (String × InVal) → PosArg
  | nonMapArg : Template → PosArg

/-- Construction errors of apply and the schema-attribute processor:
an override name absent from the schema (AttributeError in the source),
a positional argument that is not map-shaped (ValueError), and a failed
wrapped-type coercion (TypeError). -/
inductive StructError where
  | unknownAttr : String → StructError
  | notMapping : StructError
  | coercionError : StructError
deriving DecidableEq, Repr

mutual
/-- Size of a raw dict entry list, weighted for the recursion between
coercion and construction. -/
def sizeRawKw : List (String × RawIn) → Nat
  | [] => 0
  | (_, r) :: rest => sizeRawIn r + 2 + sizeRawKw rest

/-- Weighted size of a raw input. -/
def sizeRawIn : RawIn → Nat
  | .prim _ => 0
  | .dict d => sizeRawKw d + 5
end

/-- Weighted size of a construction input. -/
def sizeIn : InVal → Nat
  | .empty => 0
  | .obj _ => 0
  | .raw r => sizeRawIn r + 1

/-- Weighted size of a keyword override list. -/
def sizeKw : List (String × InVal) → Nat
  | [] => 0
  | (_, v) :: rest => sizeIn v + 1 + sizeKw rest

/-- Weighted size of a positional-argument list. -/
def sizeArgs : List PosArg → Nat
  | [] => 0
  | .mapArg m :: rest => sizeKw m + 1 + sizeArgs rest
  | .nonMapArg _ :: rest => 1 + sizeArgs rest

/-- The initial mapping apply seeds: every schema field bound to its
default, Empty where the signature has none. -/
def seedMapping (sch : Schema) : Mapping :=
  sch.map (fun p => (p.1, p.2.default.map (fun t => Obj.str t [])))

/-- Coercion klazz(value) applied to an already wrapped object of a
different class: a simple type rejects a struct value (TypeError), and a
struct class rejects any object positional argument because it is not
map-shaped (ValueError in apply). -/
def coerceObjInto (t : FType) (o : Obj) : Except StructError (Option Obj) :=
  match t, o with
  | .simple, .str _ _ => .ok (some o)
  | .simple, .strct _ _ _ _ => .error .coercionError
  | .strct _ _, _ => .error .notMapping

/-- Lift of raw dict entries to construction inputs. -/
def rawEntries : List (String × RawIn) → List (String × InVal)
  | [] => []
  | (k, r) :: rest => (k, .raw r) :: rawEntries rest

theorem sizeKw_rawEntries (d : List (String × RawIn)) :
    sizeKw (rawEntries d) = sizeRawKw d := by
  induction d with
  | nil => simp [rawEntries, sizeKw, sizeRawKw]
  | cons p rest ih =>
      obtain ⟨k, r⟩ := p
      simp [rawEntries, sizeKw, sizeRawKw, sizeIn, ih]

mutual
/-- Structural._process_schema_attribute: unknown names are rejected,
Empty passes through, an instance of the wrapped type passes through
unchanged, anything else is coerced by the wrapped type. -/
def processSchemaAttribute (sch : Schema) (attr : String) (v : InVal) :
    Except StructError (Option Obj) :=
  match alookup sch attr with
  | none => .error (.unknownAttr attr)
  | some sig =>
      match v with
      | .empty => .ok none
      | .obj o =>
          if isinstanceOf o sig.klazz then .ok (some o) else coerceObjInto sig.klazz o
      | .raw r => coerceRaw sig.klazz r
termination_by sizeIn v + 1
decreasing_by
  simp [sizeIn]

/-- Coercion of a raw value by a wrapped type: a simple type wraps a
primitive and rejects a map; a struct class constructs from a map-shaped
raw through apply and rejects a primitive as not map-shaped. -/
def coerceRaw (t : FType) (r : RawIn) : Except StructError (Option Obj) :=
  match t, r with
  | .simple, .prim tp => .ok (some (.str tp []))
  | .simple, .dict _ => .error .coercionError
  | .strct nm sch, .dict d =>
      match applyStruct sch [.mapArg (rawEntries d)] [] with
      | .ok mp => .ok (some (.strct nm sch mp []))
      | .error e => .error e
  | .strct _ _, .prim _ => .error .notMapping
termination_by sizeRawIn r + 1
decreasing_by
  simp [sizeRawIn, sizeArgs, sizeKw, sizeKw_rawEntries]

/-- Structural.apply: seed the schema defaults, apply the positional
override maps left to right, then the keyword overrides; the result is
the full field mapping, or the first construction error, with no partial
result ever returned. -/
def applyStruct (sch : Schema) (args : List PosArg) (kw : List (String × InVal)) :
    Except StructError Mapping :=
  foldArgs sch (seedMapping sch) args kw
termination_by sizeArgs args + sizeKw kw + 4
decreasing_by
  omega

/-- The positional-argument loop of apply. -/
def foldArgs (sch : Schema) (m : Mapping) (args : List PosArg)
    (kw : List (String × InVal)) : Except StructError Mapping :=
  match args with
  | [] => updateSchemaData sch m kw
  | .nonMapArg _ :: _ => .error .notMapping
  | .mapArg d :: rest =>
      match updateSchemaData sch m d with
      | .ok m2 => foldArgs sch m2 rest kw
      | .error e => .error e
termination_by sizeArgs args + sizeKw kw + 3
decreasing_by
  all_goals simp [sizeArgs, sizeKw] <;> omega

/-- Structural._update_schema_data: process each override through the
schema attribute processor and store the result under its name. -/
def updateSchemaData (sch : Schema) (m : Mapping) (kvs : List (String × InVal)) :
    Except StructError Mapping :=
  match kvs with
  | [] => .ok m
  | (k, v) :: rest =>
      match processSchemaAttribute sch k v with
      | .ok fv => updateSchemaData sch (assocSet m k fv) rest
      | .error e => .error e
termination_by sizeKw kvs + 1
decreasing_by
  all_goals simp [sizeKw] <;> omega
end

/-- Construction of a struct value, the embedding of calling the struct
class: apply builds the mapping and the new value carries no attached
outer frames. -/
def mkStruct (nm : String) (sch : Schema) (args : List PosArg)
    (kw : List (String × InVal)) : Except StructError Obj :=
  match applyStruct sch args kw with
  | .ok mp => .ok (.strct nm sch mp [])
  | .error e => .error e

/-- Structural.__call__ with the receiver state made explicit: the
source copies the receiver (base.py copy, modelled from the spec as a
fresh mapping holding the same entries), mutates only the copy through
_update_schema_data, and returns it; the pair is (returned value,
receiver after the call), the receiver untouched because the update hit
only the copy. -/
def structCall (nm : String) (sch : Schema) (mp : Mapping)
    (sc : List Frame) (kw : List (String × InVal)) :
    Except StructError (Obj × Obj) :=
  match updateSchemaData sch mp kw with
  | .ok m2 => .ok (.strct nm sch m2 sc, .strct nm sch mp sc)
  | .error e => .error e

/-- Structural._filter_against_schema: keep only the entries whose key
is a schema field. -/
def filterAgainstSchema (sch : Schema) (vals : List (String × InVal)) :
    List (String × InVal) :=
  vals.filter (fun p => (alookup sch p.1).isSome)

/-- Structural.json_load and json_loads on an already parsed JSON
object: in strict mode the parsed entries are passed through unfiltered
to construction; otherwise they are filtered against the schema first. -/
def jsonLoadStruct (nm : String) (sch : Schema) (d : List (String × InVal))
    (strict : Bool) : Except StructError Obj :=
  mkStruct nm sch [.mapArg (if strict then d else filterAgainstSchema sch d)] []

/-- Field mapping of a struct value. -/
def getMapping : Obj → Mapping
  | .str _ _ => []
  | .strct _ _ mp _ => mp

/-- Key containment between field mappings, the key half of the dict
comparison in __eq__. -/
def keysIncl (a b : Mapping) : Bool :=
  a.all (fun p => (alookup b p.1).isSome)

mutual
/-- Structural equality of field values as the interpolated-mapping
comparison of __eq__ uses it: scopes are excluded from equality, str
values compare by template, struct values by TYPEMAP and field mapping
(the collaborator equality of leaf values is structural per the spec;
nested struct members are compared on their already interpolated
mappings). -/
def objEqStructural : Obj → Obj → Bool
  | .str t _, .str t2 _ => t == t2
  | .strct _ sch mp _, .strct _ sch2 mp2 _ =>
      typemapEq sch sch2 && keysIncl mp mp2 && keysIncl mp2 mp && valsMatch mp mp2
  | _, _ => false

/-- Entry-wise comparison of a mapping against another by key lookup. -/
def valsMatch : Mapping → Mapping → Bool
  | [], _ => true
  | (k, fv) :: rest, b =>
      (match alookup b k with
       | some fv2 => fieldValEq fv fv2
       | none => false) && valsMatch rest b

/-- Equality of value-or-Empty field slots. -/
def fieldValEq : Option Obj → Option Obj → Bool
  | none, none => true
  | some o, some o2 => objEqStructural o o2
  | _, _ => false
end

/-- Order-insensitive dict equality of two field mappings. -/
def fieldMapEq (a b : Mapping) : Bool :=
  keysIncl a b && keysIncl b a && valsMatch a b

/-- Structural.__eq__: a non-composite comparand is unequal, a composite
with a different TYPEMAP is unequal, and otherwise the fully
interpolated field mappings are compared. -/
def structEq (self other : Obj) : Bool :=
  match self, other with
  | .strct _ sch _ _, .strct _ sch2 _ _ =>
      if typemapEq sch sch2 then
        fieldMapEq (getMapping (interpObj self []).1) (getMapping (interpObj other []).1)
      else false
  | _, _ => false

/-- Primitive wrapped types for the schema round trip: the simple
field-capable classes whose descriptors the type registry can
materialize. -/
inductive PrimType where
  | string : PrimType
  | integer : PrimType
deriving DecidableEq, Repr

/-- A raw primitive payload, as get() hands it back. -/
inductive PRaw where
  | rstr : String → PRaw
  | rint : Int → PRaw
deriving DecidableEq, Repr

/-- A wrapped primitive instance. -/
inductive PValue where
  | vstr : String → PValue
  | vint : Int → PValue
deriving DecidableEq, Repr

/-- serialize_type of a primitive wrapped type: its descriptor. -/
def serializeType : PrimType → String
  | .string => "String"
  | .integer => "Integer"

/-- Modelled from the spec: TypeFactory.new (typing.py, absent from
src), materializing a wrapped type from its serialized descriptor. -/
def registryNew (d : String) : Option PrimType :=
  if d = "String" then some .string
  else if d = "Integer" then some .integer
  else none

/-- The isinstance test of primitive instances against a wrapped type. -/
def instanceOfP : PValue → PrimType → Bool
  | .vstr _, .string => true
  | .vint _, .integer => true
  | _, _ => false

/-- Coercion of a raw payload by a primitive wrapped type: a string type
accepts text and renders a number, an integer type accepts a number and
parses text, failing on unparsable text. -/
def coercePrim : PrimType → PRaw → Option PValue
  | .string, .rstr s => some (.vstr s)
  | .string, .rint n => some (.vstr (toString n))
  | .integer, .rint n => some (.vint n)
  | .integer, .rstr s => (s.toInt?).map .vint

/-- Raw extraction from a wrapped primitive instance. -/
def PValue.get : PValue → PRaw
  | .vstr s => .rstr s
  | .vint n => .rint n

/-- TypeSignature over a primitive wrapped type: wrapped type, required
flag, and an optional already coerced default instance. -/
structure TypeSignatureP where
  klazz : PrimType
  required : Bool
  dflt : Option PValue
deriving DecidableEq, Repr

/-- TypeSignature construction from a raw default: a default that is not
an instance of the wrapped type is coerced once, at signature
construction. -/
def mkSigFromRaw (cls : PrimType) (req : Bool) (d : Option PRaw) :
    Option TypeSignatureP :=
  match d with
  | none => some ⟨cls, req, none⟩
  | some r => (coercePrim cls r).map (fun v => ⟨cls, req, some v⟩)

/-- TypeSignature.serialize: the flat tuple (required flag, raw default
or the empty marker, emptiness, wrapped-type descriptor). -/
def serializeSig (s : TypeSignatureP) : Bool × Option PRaw × Bool × String :=
  (s.required, s.dflt.map PValue.get, s.dflt.isNone, serializeType s.klazz)

/-- TypeSignature.deserialize: rebuild the wrapped type through the
registry, then re-wrap the raw default when the signature is not empty. -/
def deserializeSig (sig : Bool × Option PRaw × Bool × String) :
    Option TypeSignatureP :=
  match registryNew sig.2.2.2 with
  | none => none
  | some cls =>
      if sig.2.2.1 then some ⟨cls, sig.1, none⟩
      else
        match sig.2.1 with
        | some raw => (coercePrim cls raw).map (fun v => ⟨cls, sig.1, some v⟩)
        | none => none

/-- TypeSignature.__eq__: structural over the serialized form — wrapped
type descriptor, required flag, default and emptiness. -/
def sigEqP (a b : TypeSignatureP) : Bool :=
  serializeType a.klazz == serializeType b.klazz &&
  a.required == b.required && a.dflt == b.dflt &&
  a.dflt.isNone == b.dflt.isNone

theorem coercePrim_get (t : PrimType) (v : PValue)
    (h : instanceOfP v t = true) : coercePrim t (PValue.get v) = some v := by
  cases t <;> cases v <;> simp [instanceOfP] at h ⊢ <;> simp [coercePrim, PValue.get]

theorem mem_keys_of_alookup {α : Type} (l : List (String × α)) (k : String) (v : α)
    (h : alookup l k = some v) : k ∈ l.map Prod.fst := by
  induction l with
  | nil => simp [alookup] at h
  | cons p rest ih =>
      obtain ⟨k2, w⟩ := p
      by_cases hk : k2 = k
      · simp [hk]
      · simp [alookup, hk] at h
        simp [ih h]

theorem alookup_mem {α : Type} (l : List (String × α)) (k : String) (v : α)
    (h : alookup l k = some v) : (k, v) ∈ l := by
  induction l with
  | nil => simp [alookup] at h
  | cons p rest ih =>
      obtain ⟨k2, w⟩ := p
      by_cases hk : k2 = k
      · subst hk
        simp [alookup] at h
        simp [h]
      · simp [alookup, hk] at h
        simp [ih h]

theorem assocSet_map_fst_of_mem {α : Type} (m : List (String × α)) (k : String) (v : α)
    (h : k ∈ m.map Prod.fst) : (assocSet m k v).map Prod.fst = m.map Prod.fst := by
  induction m with
  | nil => simp at h
  | cons p rest ih =>
      obtain ⟨k2, w⟩ := p
      by_cases hk : k2 = k
      · simp [assocSet, hk]
      · simp only [List.map_cons, List.mem_cons] at h
        rcases h with h | h
        · exact absurd h.symm hk
        · simp [assocSet, hk, ih h]

theorem alookup_assocSet_ne {α : Type} (m : List (String × α)) (k k2 : String) (v : α)
    (h : ¬ k2 = k) : alookup (assocSet m k v) k2 = alookup m k2 := by
  have hne : ¬ k = k2 := fun hh => h hh.symm
  induction m with
  | nil => simp [assocSet, alookup, hne]
  | cons p rest ih =>
      obtain ⟨k3, w⟩ := p
      by_cases hk : k3 = k
      · subst hk
        simp [assocSet, alookup, hne]
      · simp [assocSet, hk, alookup, ih]

theorem seedMapping_keys (sch : Schema) :
    (seedMapping sch).map Prod.fst = sch.map Prod.fst := by
  simp [seedMapping]

theorem alookup_seedMapping (sch : Schema) (f : String) :
    alookup (seedMapping sch) f =
      (alookup sch f).map (fun sig => sig.default.map (fun t => Obj.str t [])) := by
  induction sch with
  | nil => simp [seedMapping, alookup]
  | cons p rest ih =>
      obtain ⟨k, sig⟩ := p
      by_cases hk : k = f
      · simp [seedMapping, alookup, hk]
      · simp [seedMapping, alookup, hk] at ih ⊢
        exact ih

theorem process_ok_isSome (sch : Schema) (k : String) (v : InVal) (fv : Option Obj)
    (h : processSchemaAttribute sch k v = .ok fv) : (alookup sch k).isSome := by
  rw [processSchemaAttribute] at h
  cases hl : alookup sch k with
  | none => rw [hl] at h; exact absurd h (by simp)
  | some sig => simp

theorem updateSchemaData_ok_keys (sch : Schema) (kvs : List (String × InVal))
    (m m2 : Mapping)
    (hsub : ∀ k, k ∈ sch.map Prod.fst → k ∈ m.map Prod.fst)
    (h : updateSchemaData sch m kvs = .ok m2) :
    m2.map Prod.fst = m.map Prod.fst := by
  induction kvs generalizing m with
  | nil =>
      rw [updateSchemaData] at h
      simp at h
      rw [h]
  | cons p rest ih =>
      obtain ⟨k, v⟩ := p
      rw [updateSchemaData] at h
      cases hp : processSchemaAttribute sch k v with
      | error e => rw [hp] at h; exact absurd h (by simp)
      | ok fv =>
          rw [hp] at h
          simp at h
          have hkm : k ∈ m.map Prod.fst := by
            have := process_ok_isSome sch k v fv hp
            cases hl : alookup sch k with
            | none => rw [hl] at this; simp at this
            | some sig => exact hsub k (mem_keys_of_alookup sch k sig hl)
          have hkeys := assocSet_map_fst_of_mem m k fv hkm
          have := ih (assocSet m k fv) (by rw [hkeys]; exact hsub) h
          rw [this, hkeys]

theorem updateSchemaData_ok_names (sch : Schema) (kvs : List (String × InVal))
    (m m2 : Mapping) (h : updateSchemaData sch m kvs = .ok m2) :
    ∀ p ∈ kvs, (alookup sch p.1).isSome := by
  induction kvs generalizing m with
  | nil => simp
  | cons p rest ih =>
      obtain ⟨k, v⟩ := p
      rw [updateSchemaData] at h
      cases hp : processSchemaAttribute sch k v with
      | error e => rw [hp] at h; exact absurd h (by simp)
      | ok fv =>
          rw [hp] at h
          intro q hq
          rcases List.mem_cons.mp hq with hq | hq
          · rw [hq]
            exact process_ok_isSome sch k v fv hp
          · exact ih (assocSet m k fv) h q hq

theorem updateSchemaData_not_mem (sch : Schema) (kvs : List (String × InVal))
    (m m2 : Mapping) (h : updateSchemaData sch m kvs = .ok m2)
    (k : String) (hk : k ∉ kvs.map Prod.fst) :
    alookup m2 k = alookup m k := by
  induction kvs generalizing m with
  | nil =>
      rw [updateSchemaData] at h
      simp at h
      rw [h]
  | cons p rest ih =>
      obtain ⟨k2, v⟩ := p
      rw [updateSchemaData] at h
      cases hp : processSchemaAttribute sch k2 v with
      | error e => rw [hp] at h; exact absurd h (by simp)
      | ok fv =>
          rw [hp] at h
          simp at hk
          have := ih (assocSet m k2 fv) h (by simp [hk.2])
          rw [this, alookup_assocSet_ne m k2 k fv hk.1]

theorem updateSchemaData_head_unknown (sch : Schema) (m : Mapping) (k : String)
    (v : InVal) (rest : List (String × InVal)) (h : alookup sch k = none) :
    updateSchemaData sch m ((k, v) :: rest) = .error (.unknownAttr k) := by
  rw [updateSchemaData, processSchemaAttribute, h]

theorem updateSchemaData_unknown (sch : Schema) (kvs : List (String × InVal))
    (m : Mapping) (hex : ∃ p ∈ kvs, alookup sch p.1 = none) :
    ∃ e, updateSchemaData sch m kvs = .error e := by
  induction kvs generalizing m with
  | nil => simp at hex
  | cons p rest ih =>
      obtain ⟨k, v⟩ := p
      rw [updateSchemaData]
      cases hp : processSchemaAttribute sch k v with
      | error e => exact ⟨e, rfl⟩
      | ok fv =>
          rcases hex with ⟨q, hq, hqn⟩
          rcases List.mem_cons.mp hq with hq | hq
          · have := process_ok_isSome sch k v fv hp
            rw [hq] at hqn
            simp [hqn] at this
          · exact ih (assocSet m k fv) ⟨q, hq, hqn⟩

/-- Names supplied by the positional override maps. -/
def argKeys : List PosArg → List String
  | [] => []
  | .mapArg d :: rest => d.map Prod.fst ++ argKeys rest
  | .nonMapArg _ :: rest => argKeys rest

theorem foldArgs_ok_keys (sch : Schema) (args : List PosArg)
    (kw : List (String × InVal)) (m m2 : Mapping)
    (hsub : ∀ k, k ∈ sch.map Prod.fst → k ∈ m.map Prod.fst)
    (h : foldArgs sch m args kw = .ok m2) :
    m2.map Prod.fst = m.map Prod.fst := by
  induction args generalizing m with
  | nil =>
      rw [foldArgs] at h
      exact updateSchemaData_ok_keys sch kw m m2 hsub h
  | cons a rest ih =>
      cases a with
      | nonMapArg t => rw [foldArgs] at h; exact absurd h (by simp)
      | mapArg d =>
          rw [foldArgs] at h
          cases hu : updateSchemaData sch m d with
          | error e => rw [hu] at h; exact absurd h (by simp)
          | ok m1 =>
              rw [hu] at h
              have hk1 := updateSchemaData_ok_keys sch d m m1 hsub hu
              have := ih m1 (by rw [hk1]; exact hsub) h
              rw [this, hk1]

theorem foldArgs_ok_mapArgs (sch : Schema) (args : List PosArg)
    (kw : List (String × InVal)) (m m2 : Mapping)
    (h : foldArgs sch m args kw = .ok m2) :
    ∀ a ∈ args, ∃ d, a = PosArg.mapArg d := by
  induction args generalizing m with
  | nil => simp
  | cons a rest ih =>
      cases a with
      | nonMapArg t => rw [foldArgs] at h; exact absurd h (by simp)
      | mapArg d =>
          rw [foldArgs] at h
          cases hu : updateSchemaData sch m d with
          | error e => rw [hu] at h; exact absurd h (by simp)
          | ok m1 =>
              rw [hu] at h
              intro a ha
              rcases List.mem_cons.mp ha with ha | ha
              · exact ⟨d, ha⟩
              · exact ih m1 h a ha

theorem foldArgs_ok_names (sch : Schema) (args : List PosArg)
    (kw : List (String × InVal)) (m m2 : Mapping)
    (h : foldArgs sch m args kw = .ok m2) :
    (∀ d p, PosArg.mapArg d ∈ args → p ∈ d → (alookup sch p.1).isSome) ∧
    (∀ p ∈ kw, (alookup sch p.1).isSome) := by
  induction args generalizing m with
  | nil =>
      rw [foldArgs] at h
      exact ⟨by simp, updateSchemaData_ok_names sch kw m m2 h⟩
  | cons a rest ih =>
      cases a with
      | nonMapArg t => rw [foldArgs] at h; exact absurd h (by simp)
      | mapArg d =>
          rw [foldArgs] at h
          cases hu : updateSchemaData sch m d with
          | error e => rw [hu] at h; exact absurd h (by simp)
          | ok m1 =>
              rw [hu] at h
              refine ⟨?_, (ih m1 h).2⟩
              intro d2 p hd2 hp
              rcases List.mem_cons.mp hd2 with hd2 | hd2
              · have hd2e : d2 = d := by injection hd2
                rw [hd2e] at hp
                exact updateSchemaData_ok_names sch d m m1 hu p hp
              · exact (ih m1 h).1 d2 p hd2 hp

theorem foldArgs_not_mem (sch : Schema) (args : List PosArg)
    (kw : List (String × InVal)) (m m2 : Mapping)
    (h : foldArgs sch m args kw = .ok m2) (k : String)
    (hka : k ∉ argKeys args) (hkw : k ∉ kw.map Prod.fst) :
    alookup m2 k = alookup m k := by
  induction args generalizing m with
  | nil =>
      rw [foldArgs] at h
      exact updateSchemaData_not_mem sch kw m m2 h k hkw
  | cons a rest ih =>
      cases a with
      | nonMapArg t => rw [foldArgs] at h; exact absurd h (by simp)
      | mapArg d =>
          rw [foldArgs] at h
          cases hu : updateSchemaData sch m d with
          | error e => rw [hu] at h; exact absurd h (by simp)
          | ok m1 =>
              rw [hu] at h
              simp [argKeys] at hka
              have h1 := updateSchemaData_not_mem sch d m m1 hu k (by simp [hka.1])
              have h2 := ih m1 h (by simp [hka.2])
              rw [h2, h1]

theorem resolveRef_mem_none (c : List Frame) (S : Finset String) (n : String)
    (h : n ∈ S) : resolveRef c S n = none := by
  simp [resolveRef, h]

/-- A concrete two-field schema with optional simple fields, used by
concrete instantiations. -/
def exSchemaOpt : Schema :=
  [("a", TypeSig.mk .simple false none), ("b", TypeSig.mk .simple false none)]

/-- A concrete schema with a required simple field, used by concrete
instantiations. -/
def exSchemaReq : Schema := [("b", TypeSig.mk .simple true none)]

/-- C3: a composite value built by apply is keyed by exactly the schema
field names — never a subset or superset — with unsupplied, defaultless
fields bound to the Empty sentinel; and functional update preserves the
full key set. -/
theorem schema_closure :
    (∀ nm sch args kw o, mkStruct nm sch args kw = .ok o →
      (getMapping o).map Prod.fst = sch.map Prod.fst ∧
      (∀ f sig, alookup sch f = some sig → sig.default = none →
        f ∉ argKeys args → f ∉ kw.map Prod.fst →
        alookup (getMapping o) f = some none)) ∧
    (∀ nm sch mp sc kw w r, structCall nm sch mp sc kw = .ok (w, r) →
      mp.map Prod.fst = sch.map Prod.fst →
      (getMapping w).map Prod.fst = sch.map Prod.fst) := by
  constructor
  · intro nm sch args kw o hmk
    rw [mkStruct] at hmk
    cases ha : applyStruct sch args kw with
    | error e => rw [ha] at hmk; exact absurd hmk (by simp)
    | ok mp =>
        rw [ha] at hmk
        simp at hmk
        rw [applyStruct] at ha
        have hsub : ∀ k, k ∈ sch.map Prod.fst → k ∈ (seedMapping sch).map Prod.fst := by
          intro k hk
          rw [seedMapping_keys]
          exact hk
        constructor
        · rw [← hmk]
          simp [getMapping]
          rw [foldArgs_ok_keys sch args kw (seedMapping sch) mp hsub ha, seedMapping_keys]
        · intro f sig hf hdef hfa hfk
          rw [← hmk]
          simp [getMapping]
          rw [foldArgs_not_mem sch args kw (seedMapping sch) mp ha f hfa hfk,
            alookup_seedMapping, hf]
          simp [hdef]
  · intro nm sch mp sc kw w r hc hkeys
    rw [structCall] at hc
    cases hu : updateSchemaData sch mp kw with
    | error e => rw [hu] at hc; exact absurd hc (by simp)
    | ok m2 =>
        rw [hu] at hc
        simp at hc
        rw [← hc.1]
        simp [getMapping]
        rw [updateSchemaData_ok_keys sch kw mp m2 (fun k hk => by rw [hkeys]; exact hk) hu,
          hkeys]

/-- C3 witness: a concrete construction supplying only one of two
fields. -/
theorem schema_closure_witness :
    (getMapping (Obj.strct "T" exSchemaOpt
        [("a", some (Obj.str [Chunk.text "v"] [])), ("b", none)] [])).map Prod.fst =
      exSchemaOpt.map Prod.fst ∧
    alookup (getMapping (Obj.strct "T" exSchemaOpt
        [("a", some (Obj.str [Chunk.text "v"] [])), ("b", none)] [])) "b" = some none := by
  have h := (schema_closure.1 "T" exSchemaOpt []
    [("a", InVal.raw (RawIn.prim [Chunk.text "v"]))]
    (Obj.strct "T" exSchemaOpt [("a", some (Obj.str [Chunk.text "v"] [])), ("b", none)] [])
    (by simp [mkStruct, applyStruct, foldArgs, updateSchemaData, processSchemaAttribute,
      seedMapping, assocSet, alookup, coerceRaw, exSchemaOpt, TypeSig.klazz, TypeSig.default]))
  exact ⟨h.1, h.2 "b" (TypeSig.mk .simple false none)
    (by simp [alookup, exSchemaOpt]) rfl (by simp [argKeys]) (by simp)⟩

/-- C2: functional update of a composite value: when the overrides name
only schema fields (and coerce), the call returns a new composite value
with the overrides applied — the update of the receiver mapping — while
the receiver itself is returned untouched (the source mutates only the
copy); fields not named keep their previous value. -/
theorem functional_update_pure (nm : String) (sch : Schema) (mp : Mapping)
    (sc : List Frame) (kw : List (String × InVal)) (m2 : Mapping)
    (h : updateSchemaData sch mp kw = .ok m2) :
    structCall nm sch mp sc kw =
      .ok (Obj.strct nm sch m2 sc, Obj.strct nm sch mp sc) ∧
    (∀ p ∈ kw, (alookup sch p.1).isSome) ∧
    (∀ k, k ∉ kw.map Prod.fst → alookup m2 k = alookup mp k) :=
  ⟨by rw [structCall, h], updateSchemaData_ok_names sch kw mp m2 h,
    fun k hk => updateSchemaData_not_mem sch kw mp m2 h k hk⟩

/-- C2 witness: a concrete update overriding one field, leaving the
other untouched and returning the receiver unchanged. -/
theorem functional_update_pure_witness :
    structCall "T" exSchemaOpt [("a", some (Obj.str [Chunk.text "u"] [])), ("b", none)] []
        [("b", InVal.raw (RawIn.prim [Chunk.text "w"]))] =
      .ok (Obj.strct "T" exSchemaOpt
            [("a", some (Obj.str [Chunk.text "u"] [])), ("b", some (Obj.str [Chunk.text "w"] []))] [],
          Obj.strct "T" exSchemaOpt
            [("a", some (Obj.str [Chunk.text "u"] [])), ("b", none)] []) ∧
    (∀ p ∈ [("b", InVal.raw (RawIn.prim [Chunk.text "w"]))], (alookup exSchemaOpt p.1).isSome) ∧
    (∀ k, k ∉ [("b", InVal.raw (RawIn.prim [Chunk.text "w"]))].map Prod.fst →
      alookup [("a", some (Obj.str [Chunk.text "u"] [])),
               ("b", some (Obj.str [Chunk.text "w"] []))] k =
        alookup [("a", some (Obj.str [Chunk.text "u"] [])), ("b", none)] k) := by
  have h := functional_update_pure "T" exSchemaOpt
    [("a", some (Obj.str [Chunk.text "u"] [])), ("b", none)] []
    [("b", InVal.raw (RawIn.prim [Chunk.text "w"]))]
    [("a", some (Obj.str [Chunk.text "u"] [])), ("b", some (Obj.str [Chunk.text "w"] []))]
    (by simp [updateSchemaData, processSchemaAttribute, assocSet, alookup, coerceRaw,
      exSchemaOpt, TypeSig.klazz])
  exact ⟨h.1, h.2.1, fun k hk => h.2.2 k hk⟩

/-- C7: construction error modes of apply: a successful apply implies
every positional argument was map-shaped and every supplied name was a
schema field, and yields the fully keyed mapping (atomicity: an error
yields no mapping at all, by the return type); a non-map positional
argument fails with the not-a-mapping construction error; an override
name absent from the schema fails with the unknown-field error; and any
override list containing an unknown name fails. -/
theorem construction_error_modes :
    (∀ sch args kw mp, applyStruct sch args kw = .ok mp →
      (∀ a ∈ args, ∃ d, a = PosArg.mapArg d) ∧
      (∀ d p, PosArg.mapArg d ∈ args → p ∈ d → (alookup sch p.1).isSome) ∧
      (∀ p ∈ kw, (alookup sch p.1).isSome) ∧
      mp.map Prod.fst = sch.map Prod.fst) ∧
    (∀ sch t rest kw, applyStruct sch (PosArg.nonMapArg t :: rest) kw =
      .error .notMapping) ∧
    (∀ sch m k v rest, alookup sch k = none →
      updateSchemaData sch m ((k, v) :: rest) = .error (.unknownAttr k)) ∧
    (∀ sch m kvs, (∃ p ∈ kvs, alookup sch p.1 = none) →
      ∃ e, updateSchemaData sch m kvs = .error e) := by
  refine ⟨?_, ?_, updateSchemaData_head_unknown,
    fun sch m kvs hex => updateSchemaData_unknown sch kvs m hex⟩
  · intro sch args kw mp h
    rw [applyStruct] at h
    have hsub : ∀ k, k ∈ sch.map Prod.fst → k ∈ (seedMapping sch).map Prod.fst := by
      intro k hk
      rw [seedMapping_keys]
      exact hk
    refine ⟨foldArgs_ok_mapArgs sch args kw _ mp h,
      (foldArgs_ok_names sch args kw _ mp h).1,
      (foldArgs_ok_names sch args kw _ mp h).2, ?_⟩
    rw [foldArgs_ok_keys sch args kw _ mp hsub h, seedMapping_keys]
  · intro sch t rest kw
    rw [applyStruct, foldArgs]

/-- C7 witness: the error modes at concrete inputs — a non-map
positional argument, and an override naming the unknown field zz. -/
theorem construction_error_modes_witness :
    applyStruct exSchemaOpt [PosArg.nonMapArg [Chunk.text "x"]] [] = .error .notMapping ∧
    updateSchemaData exSchemaOpt (seedMapping exSchemaOpt)
      [("zz", InVal.raw (RawIn.prim [Chunk.text "y"]))] = .error (.unknownAttr "zz") ∧
    (∃ e, updateSchemaData exSchemaOpt (seedMapping exSchemaOpt)
      [("zz", InVal.raw (RawIn.prim [Chunk.text "y"]))] = .error e) :=
  ⟨construction_error_modes.2.1 exSchemaOpt [Chunk.text "x"] [] [],
   construction_error_modes.2.2.1 exSchemaOpt (seedMapping exSchemaOpt) "zz"
     (InVal.raw (RawIn.prim [Chunk.text "y"])) [] (by simp [alookup, exSchemaOpt]),
   construction_error_modes.2.2.2 exSchemaOpt (seedMapping exSchemaOpt)
     [("zz", InVal.raw (RawIn.prim [Chunk.text "y"]))]
     ⟨("zz", InVal.raw (RawIn.prim [Chunk.text "y"])), by simp, by simp [alookup, exSchemaOpt]⟩⟩

/-- C8: a field signature over a primitive wrapped type, whose default
(when present) satisfies the construction invariant of being an instance
of the wrapped type, deserializes from its own serialized form back to a
structurally equal signature — same required flag, same default or
absence of one, same wrapped-type descriptor — and the constructor
mkSigFromRaw always establishes that invariant. -/
theorem signature_roundtrip (s : TypeSignatureP)
    (hinv : ∀ v, s.dflt = some v → instanceOfP v s.klazz = true) :
    (∃ s2, deserializeSig (serializeSig s) = some s2 ∧ sigEqP s s2 = true) ∧
    (∀ cls req d s0, mkSigFromRaw cls req d = some s0 →
      ∀ v, s0.dflt = some v → instanceOfP v s0.klazz = true) := by
  constructor
  · refine ⟨s, ?_, ?_⟩
    · obtain ⟨cls, req, dflt⟩ := s
      cases dflt with
      | none => cases cls <;> simp [serializeSig, deserializeSig, serializeType, registryNew]
      | some v =>
          have hv : instanceOfP v cls = true := hinv v rfl
          have hc : coercePrim cls (PValue.get v) = some v := coercePrim_get cls v hv
          cases cls <;>
            simp [serializeSig, deserializeSig, serializeType, registryNew, hc]
    · simp [sigEqP]
  · intro cls req d s0 hmk v hd
    cases d with
    | none =>
        simp [mkSigFromRaw] at hmk
        rw [← hmk] at hd
        simp at hd
    | some r =>
        simp [mkSigFromRaw] at hmk
        obtain ⟨w, hw, hs0⟩ := hmk
        rw [← hs0] at hd
        simp at hd
        rw [← hs0, ← hd]
        cases cls <;> cases r <;> simp [coercePrim] at hw
        all_goals try obtain ⟨m, hm, hw⟩ := hw
        all_goals try rw [← hw]
        all_goals simp [instanceOfP]

/-- C8 witness: the round trip evaluated at a concrete required string
signature with a coerced default. -/
theorem signature_roundtrip_witness :
    (∃ s2, deserializeSig (serializeSig ⟨PrimType.string, true, some (PValue.vstr "x")⟩) =
        some s2 ∧ sigEqP ⟨PrimType.string, true, some (PValue.vstr "x")⟩ s2 = true) ∧
    (∀ cls req d s0, mkSigFromRaw cls req d = some s0 →
      ∀ v, s0.dflt = some v → instanceOfP v s0.klazz = true) :=
  signature_roundtrip ⟨PrimType.string, true, some (PValue.vstr "x")⟩
    (by intro v hv; simp at hv; rw [← hv]; simp [instanceOfP])

/-- C1: resolution terminates on self- and mutually-referential scope
chains. A name already on the active resolution path is treated as
unbound (resolution yields none and interpolation keeps the placeholder
and records the name), and interpolate of a composite value whose two
fields form a reference cycle returns — computed here in full — with the
cycle names reported unbound. Totality of interpObj over all values is
the termination guarantee itself. -/
theorem interpolate_cycle_safe :
    (∀ c S n, n ∈ S → resolveRef c S n = none) ∧
    (∀ c S n rest, n ∈ S →
      interpTemplate c S (Chunk.ref n :: rest) =
        (Chunk.ref n :: (interpTemplate c S rest).1,
         insert n (interpTemplate c S rest).2)) ∧
    interpObj
      (Obj.strct "P" [("a", TypeSig.mk .simple false none), ("b", TypeSig.mk .simple false none)]
        [("a", some (Obj.str [Chunk.ref "b"] [])), ("b", some (Obj.str [Chunk.ref "a"] []))]
        []) []
      = (Obj.strct "P" [("a", TypeSig.mk .simple false none), ("b", TypeSig.mk .simple false none)]
          [("a", some (Obj.str [Chunk.ref "b"] [])), ("b", some (Obj.str [Chunk.ref "a"] []))]
          [],
         {"b", "a"}) := by
  refine ⟨fun c S n h => resolveRef_mem_none c S n h, fun c S n rest h => ?_, ?_⟩
  · simp [interpTemplate, resolveRef_mem_none c S n h]
  · simp [interpObj, interpFields, interpTemplate, resolveRef, selfFrame,
      lookupChain, alookup, normTemplate]
    decide

theorem checkFields_success_mp (nm : String) (sch : Schema) (chain : List Frame) :
    ∀ mp : Mapping, checkFields nm sch chain mp = .success →
      (∀ k, (k, (none : Option Obj)) ∈ mp →
        ∀ sig, alookup sch k = some sig → sig.required = false) ∧
      (∀ k o, (k, some o) ∈ mp → checkObj o chain = .success) := by
  intro mp
  induction mp with
  | nil => simp
  | cons p rest ih =>
      obtain ⟨k, fv⟩ := p
      intro h
      cases fv with
      | none =>
          rw [checkFields] at h
          by_cases hc : (match alookup sch k with
              | some sig => sig.required
              | none => false) = true
          · rw [if_pos hc] at h
            exact absurd h (by simp)
          · rw [if_neg hc] at h
            have := ih h
            refine ⟨?_, ?_⟩
            · intro k2 hk2 sig hsig
              rcases List.mem_cons.mp hk2 with hk2 | hk2
              · have hke : k2 = k := by injection hk2 with h1 h2
                rw [hke] at hsig
                rw [hsig] at hc
                simp at hc
                exact hc
              · exact this.1 k2 hk2 sig hsig
            · intro k2 o hk2
              rcases List.mem_cons.mp hk2 with hk2 | hk2
              · exact absurd hk2 (by simp)
              · exact this.2 k2 o hk2
      | some o =>
          rw [checkFields] at h
          cases hco : checkObj o chain with
          | failure m => rw [hco] at h; exact absurd h (by simp)
          | success =>
              rw [hco] at h
              have := ih h
              refine ⟨?_, ?_⟩
              · intro k2 hk2 sig hsig
                rcases List.mem_cons.mp hk2 with hk2 | hk2
                · exact absurd hk2 (by simp)
                · exact this.1 k2 hk2 sig hsig
              · intro k2 o2 hk2
                rcases List.mem_cons.mp hk2 with hk2 | hk2
                · injection hk2 with h1 h2
                  injection h2 with h3
                  rw [h3]
                  exact hco
                · exact this.2 k2 o2 hk2

theorem checkFields_success_mpr (nm : String) (sch : Schema) (chain : List Frame) :
    ∀ mp : Mapping,
      (∀ k, (k, (none : Option Obj)) ∈ mp →
        ∀ sig, alookup sch k = some sig → sig.required = false) →
      (∀ k o, (k, some o) ∈ mp → checkObj o chain = .success) →
      checkFields nm sch chain mp = .success := by
  intro mp
  induction mp with
  | nil => intro h1 h2; rw [checkFields]
  | cons p rest ih =>
      obtain ⟨k, fv⟩ := p
      intro h1 h2
      cases fv with
      | none =>
          rw [checkFields]
          have hc : (match alookup sch k with
              | some sig => sig.required
              | none => false) = false := by
            cases hl : alookup sch k with
            | none => simp
            | some sig => simp [h1 k (by simp) sig hl]
          rw [if_neg (by simp [hc])]
          exact ih (fun k2 hk2 sig hsig => h1 k2 (List.mem_cons_of_mem _ hk2) sig hsig)
            (fun k2 o hk2 => h2 k2 o (List.mem_cons_of_mem _ hk2))
      | some o =>
          rw [checkFields]
          rw [h2 k o (by simp)]
          exact ih (fun k2 hk2 sig hsig => h1 k2 (List.mem_cons_of_mem _ hk2) sig hsig)
            (fun k2 o2 hk2 => h2 k2 o2 (List.mem_cons_of_mem _ hk2))

theorem checkFields_first_required (nm : String) (sch : Schema) (chain : List Frame) :
    ∀ (pre : Mapping) (f : String) (post : Mapping) (sig : TypeSig),
      alookup sch f = some sig → sig.required = true →
      checkFields nm sch chain pre = .success →
      checkFields nm sch chain (pre ++ (f, none) :: post) =
        .failure (nm ++ "[" ++ f ++ "] is required.") := by
  intro pre
  induction pre with
  | nil =>
      intro f post sig hsig hreq _
      rw [List.nil_append, checkFields]
      rw [if_pos (by rw [hsig]; exact hreq)]
  | cons p rest ih =>
      obtain ⟨k, fv⟩ := p
      intro f post sig hsig hreq hpre
      cases fv with
      | none =>
          rw [checkFields] at hpre
          by_cases hc : (match alookup sch k with
              | some sig2 => sig2.required
              | none => false) = true
          · rw [if_pos hc] at hpre
            exact absurd hpre (by simp)
          · rw [if_neg hc] at hpre
            rw [List.cons_append, checkFields, if_neg hc]
            exact ih f post sig hsig hreq hpre
      | some o =>
          rw [checkFields] at hpre
          cases hco : checkObj o chain with
          | failure m => rw [hco] at hpre; exact absurd hpre (by simp)
          | success =>
              rw [hco] at hpre
              rw [List.cons_append, checkFields, hco]
              exact ih f post sig hsig hreq hpre

/-- C4 counterexample, refuting both halves of the claim as stated.
First input: the composite T with a single required field b left unset.
Its check fails — yet it has no present field at all (its self-scope is
empty), so every non-Absent field check succeeds vacuously; the claimed
biconditional (check succeeds iff every non-Absent field check succeeds)
is therefore false there. Second input: a composite T whose field a is a
nested composite R missing its own required field c, followed by the
required field b left unset. The claim premise holds (b is required and
Absent, as the last two conjuncts record), but check returns the wrapped
failure for field a — a message that names a, not the required field b,
and differs from the required-field message for b — so the universal
naming guarantee is also false as stated. -/
theorem check_iff_counterexample :
    checkObj (Obj.strct "T" exSchemaReq [("b", none)] []) [] =
      TypeCheck.failure "T[b] is required." ∧
    selfFrame [("b", (none : Option Obj))] = [] ∧
    checkObj (Obj.strct "T"
        [("a", TypeSig.mk (FType.strct "R" [("c", TypeSig.mk .simple true none)]) false none),
         ("b", TypeSig.mk .simple true none)]
        [("a", some (Obj.strct "R" [("c", TypeSig.mk .simple true none)] [("c", none)] [])),
         ("b", none)] []) [] =
      TypeCheck.failure "T[a] failed: R[c] is required." ∧
    ("T[a] failed: R[c] is required." ≠ ("T[b] is required." : String)) ∧
    alookup [("a", TypeSig.mk (FType.strct "R" [("c", TypeSig.mk .simple true none)]) false none),
             ("b", TypeSig.mk .simple true none)] "b" =
      some (TypeSig.mk .simple true none) ∧
    alookup [("a", some (Obj.strct "R" [("c", TypeSig.mk .simple true none)] [("c", none)] [])),
             ("b", (none : Option Obj))] "b" = some none := by
  refine ⟨?_, by simp [selfFrame], ?_, by simp, by simp [alookup], by simp [alookup]⟩
  · simp [checkObj, checkFields, selfFrame, alookup, exSchemaReq, TypeSig.required]
  · simp [checkObj, checkFields, selfFrame, alookup, TypeSig.required]

/-- C4 amended: check of a composite value succeeds iff no required
field is Absent and every non-Absent field, checked in the composite
scope chain, succeeds; and when the first failing field in mapping order
is a required Absent field, check fails naming the composite type and
that field in the source message format. Failure is always an ordinary
TypeCheck value, by the type of checkObj. -/
theorem check_success_iff_and_required_naming :
    (∀ nm sch sc extra mp,
      checkObj (Obj.strct nm sch mp sc) extra = TypeCheck.success ↔
        ((∀ k, (k, (none : Option Obj)) ∈ mp →
            ∀ sig, alookup sch k = some sig → sig.required = false) ∧
         (∀ k o, (k, some o) ∈ mp →
            checkObj o (selfFrame mp :: (sc ++ extra)) = TypeCheck.success))) ∧
    (∀ nm sch sc extra pre f post sig,
      alookup sch f = some sig → sig.required = true →
      checkFields nm sch (selfFrame (pre ++ (f, none) :: post) :: (sc ++ extra)) pre =
        TypeCheck.success →
      checkObj (Obj.strct nm sch (pre ++ (f, none) :: post) sc) extra =
        TypeCheck.failure (nm ++ "[" ++ f ++ "] is required.")) := by
  constructor
  · intro nm sch sc extra mp
    rw [checkObj]
    constructor
    · exact checkFields_success_mp nm sch (selfFrame mp :: (sc ++ extra)) mp
    · intro ⟨h1, h2⟩
      exact checkFields_success_mpr nm sch (selfFrame mp :: (sc ++ extra)) mp h1 h2
  · intro nm sch sc extra pre f post sig hsig hreq hpre
    rw [checkObj]
    exact checkFields_first_required nm sch _ pre f post sig hsig hreq hpre

/-- C4 witness: the amended theorem applied at a concrete composite with
its required field b unset first in mapping order. -/
theorem check_required_naming_witness :
    checkObj (Obj.strct "T" exSchemaReq [("b", none)] []) [] =
      TypeCheck.failure ("T" ++ "[" ++ "b" ++ "] is required.") :=
  check_success_iff_and_required_naming.2 "T" exSchemaReq [] [] [] "b" []
    (TypeSig.mk .simple true none) (by simp [alookup, exSchemaReq]) rfl
    (by rw [checkFields])

theorem filterAgainstSchema_isSome (sch : Schema) (d : List (String × InVal)) :
    ∀ p ∈ filterAgainstSchema sch d, (alookup sch p.1).isSome := by
  intro p hp
  have := List.of_mem_filter hp
  simpa using this

theorem process_flat_no_unknown (sch : Schema) (k : String) (v : InVal)
    (e : StructError) (hflat : ∀ p ∈ sch, p.2.klazz = FType.simple)
    (hk : (alookup sch k).isSome) (h : processSchemaAttribute sch k v = .error e) :
    ∀ k2, e ≠ .unknownAttr k2 := by
  rw [processSchemaAttribute] at h
  cases hl : alookup sch k with
  | none => rw [hl] at hk; simp at hk
  | some sig =>
      rw [hl] at h
      dsimp only at h
      have hsimple : sig.klazz = FType.simple := hflat (k, sig) (alookup_mem sch k sig hl)
      cases v with
      | empty => simp at h
      | obj o =>
          dsimp only at h
          rw [hsimple] at h
          cases o with
          | str t sc => simp [isinstanceOf] at h
          | strct a b cc dd =>
              simp [isinstanceOf, coerceObjInto] at h
              intro k2
              rw [← h]
              simp
      | raw r =>
          dsimp only at h
          rw [hsimple] at h
          cases r with
          | prim t => simp [coerceRaw] at h
          | dict dd =>
              simp [coerceRaw] at h
              intro k2
              rw [← h]
              simp

theorem updateSchemaData_flat_no_unknown (sch : Schema)
    (hflat : ∀ p ∈ sch, p.2.klazz = FType.simple) :
    ∀ (kvs : List (String × InVal)) (m : Mapping) (e : StructError),
      (∀ p ∈ kvs, (alookup sch p.1).isSome) →
      updateSchemaData sch m kvs = .error e → ∀ k2, e ≠ .unknownAttr k2 := by
  intro kvs
  induction kvs with
  | nil => intro m e _ h; rw [updateSchemaData] at h; exact absurd h (by simp)
  | cons p rest ih =>
      obtain ⟨k, v⟩ := p
      intro m e hkeys h
      rw [updateSchemaData] at h
      cases hp : processSchemaAttribute sch k v with
      | error e2 =>
          rw [hp] at h
          simp at h
          rw [← h]
          exact process_flat_no_unknown sch k v e2 hflat (hkeys (k, v) (by simp)) hp
      | ok fv =>
          rw [hp] at h
          exact ih (assocSet m k fv) e (fun q hq => hkeys q (List.mem_cons_of_mem _ hq)) h

theorem mkStruct_flat_no_unknown (nm : String) (sch : Schema)
    (dd : List (String × InVal)) (e : StructError)
    (hflat : ∀ p ∈ sch, p.2.klazz = FType.simple)
    (hkeys : ∀ p ∈ dd, (alookup sch p.1).isSome)
    (h : mkStruct nm sch [PosArg.mapArg dd] [] = .error e) :
    ∀ k2, e ≠ .unknownAttr k2 := by
  rw [mkStruct] at h
  cases ha : applyStruct sch [PosArg.mapArg dd] [] with
  | ok mp => rw [ha] at h; exact absurd h (by simp)
  | error e2 =>
      rw [ha] at h
      simp at h
      rw [← h]
      rw [applyStruct, foldArgs] at ha
      cases hu : updateSchemaData sch (seedMapping sch) dd with
      | ok m1 =>
          rw [hu] at ha
          simp [foldArgs, updateSchemaData] at ha
      | error e3 =>
          rw [hu] at ha
          simp at ha
          rw [← ha]
          exact updateSchemaData_flat_no_unknown sch hflat dd (seedMapping sch) e3 hkeys hu

/-- C9: JSON ingestion. Non-strict loading builds the value from the
entries filtered against the schema, so on flat schemas an unknown-field
error can never surface; strict loading passes all entries through, so
an entry keyed outside the schema surfaces as a construction error. -/
theorem json_strict_and_lenient :
    (∀ nm sch d, jsonLoadStruct nm sch d false =
      mkStruct nm sch [PosArg.mapArg (filterAgainstSchema sch d)] []) ∧
    (∀ nm sch d e, (∀ p ∈ sch, p.2.klazz = FType.simple) →
      jsonLoadStruct nm sch d false = .error e → ∀ k, e ≠ .unknownAttr k) ∧
    (∀ nm sch d, (∃ p ∈ d, alookup sch p.1 = none) →
      ∃ e, jsonLoadStruct nm sch d true = .error e) ∧
    (∀ nm sch d, jsonLoadStruct nm sch d true = mkStruct nm sch [PosArg.mapArg d] []) := by
  refine ⟨fun nm sch d => by simp [jsonLoadStruct], ?_, ?_, fun nm sch d => by simp [jsonLoadStruct]⟩
  · intro nm sch d e hflat h
    have h2 : mkStruct nm sch [PosArg.mapArg (filterAgainstSchema sch d)] [] = .error e := by
      simpa [jsonLoadStruct] using h
    exact mkStruct_flat_no_unknown nm sch (filterAgainstSchema sch d) e hflat
      (filterAgainstSchema_isSome sch d) h2
  · intro nm sch d hex
    rcases updateSchemaData_unknown sch d (seedMapping sch) hex with ⟨e, he⟩
    refine ⟨e, ?_⟩
    simp [jsonLoadStruct, mkStruct, applyStruct, foldArgs, he]

/-- C9 witness: ingesting an object with the unknown key zz — dropped in
non-strict mode, a construction error in strict mode. -/
theorem json_strict_and_lenient_witness :
    jsonLoadStruct "T" exSchemaOpt [("zz", InVal.raw (RawIn.prim [Chunk.text "y"]))] false =
      mkStruct "T" exSchemaOpt
        [PosArg.mapArg (filterAgainstSchema exSchemaOpt
          [("zz", InVal.raw (RawIn.prim [Chunk.text "y"]))])] [] ∧
    (∃ e, jsonLoadStruct "T" exSchemaOpt
      [("zz", InVal.raw (RawIn.prim [Chunk.text "y"]))] true = .error e) :=
  ⟨json_strict_and_lenient.1 "T" exSchemaOpt [("zz", InVal.raw (RawIn.prim [Chunk.text "y"]))],
   json_strict_and_lenient.2.2.1 "T" exSchemaOpt
     [("zz", InVal.raw (RawIn.prim [Chunk.text "y"]))]
     ⟨("zz", InVal.raw (RawIn.prim [Chunk.text "y"])), by simp, by simp [alookup, exSchemaOpt]⟩⟩

theorem interpFields_keys (mp : Mapping) (chain : List Frame) :
    (interpFields mp chain).1.map Prod.fst = mp.map Prod.fst := by
  induction mp with
  | nil => rw [interpFields]
  | cons p rest ih =>
      obtain ⟨k, fv⟩ := p
      cases fv with
      | none => rw [interpFields]; simp [ih]
      | some o => rw [interpFields]; simp [ih]

theorem interpFields_alookup (mp : Mapping) (chain : List Frame) (k : String) :
    alookup (interpFields mp chain).1 k =
      (alookup mp k).map (fun fv => fv.map (fun o => (interpObj o chain).1)) := by
  induction mp with
  | nil => rw [interpFields]; simp [alookup]
  | cons p rest ih =>
      obtain ⟨k2, fv⟩ := p
      cases fv with
      | none =>
          rw [interpFields]
          by_cases hk : k2 = k
          · simp [alookup, hk]
          · simp [alookup, hk, ih]
      | some o =>
          rw [interpFields]
          by_cases hk : k2 = k
          · simp [alookup, hk]
          · simp [alookup, hk, ih]

theorem interpFields_unbound (mp : Mapping) (chain : List Frame) (n : String) :
    n ∈ (interpFields mp chain).2 ↔
      ∃ k o, (k, some o) ∈ mp ∧ n ∈ (interpObj o chain).2 := by
  induction mp with
  | nil => rw [interpFields]; simp
  | cons p rest ih =>
      obtain ⟨k2, fv⟩ := p
      cases fv with
      | none =>
          rw [interpFields]
          simp only []
          rw [ih]
          constructor
          · rintro ⟨k, o, hm, hn⟩
            exact ⟨k, o, List.mem_cons_of_mem _ hm, hn⟩
          · rintro ⟨k, o, hm, hn⟩
            rcases List.mem_cons.mp hm with hm | hm
            · exact absurd hm (by simp)
            · exact ⟨k, o, hm, hn⟩
      | some o =>
          rw [interpFields]
          simp only [Finset.mem_union]
          rw [ih]
          constructor
          · rintro (hn | ⟨k, o2, hm, hn⟩)
            · exact ⟨k2, o, by simp, hn⟩
            · exact ⟨k, o2, List.mem_cons_of_mem _ hm, hn⟩
          · rintro ⟨k, o2, hm, hn⟩
            rcases List.mem_cons.mp hm with hm | hm
            · injection hm with h1 h2
              injection h2 with h3
              left
              rw [← h3]
              exact hn
            · right
              exact ⟨k, o2, hm, hn⟩

/-- C5: interpolate of a composite value returns a fresh value of the
same class whose mapping is keyed exactly like the original, keeps each
Empty field Empty and replaces each present field by its interpolation
against the full scope chain — the self-scope of non-Absent fields
first, then the attached outer frames — together with the union of the
unbound names of all fields, a set and hence deduplicated and
order-insensitive. -/
theorem interpolate_of_struct (nm : String) (sch : Schema) (mp : Mapping)
    (sc extra : List Frame) :
    (interpObj (Obj.strct nm sch mp sc) extra).1 =
      Obj.strct nm sch (interpFields mp (selfFrame mp :: (sc ++ extra))).1 [] ∧
    (interpFields mp (selfFrame mp :: (sc ++ extra))).1.map Prod.fst = mp.map Prod.fst ∧
    (∀ k, alookup (interpFields mp (selfFrame mp :: (sc ++ extra))).1 k =
      (alookup mp k).map (fun fv =>
        fv.map (fun o => (interpObj o (selfFrame mp :: (sc ++ extra))).1))) ∧
    (∀ n, n ∈ (interpObj (Obj.strct nm sch mp sc) extra).2 ↔
      ∃ k o, (k, some o) ∈ mp ∧
        n ∈ (interpObj o (selfFrame mp :: (sc ++ extra))).2) := by
  refine ⟨by rw [interpObj], interpFields_keys mp _,
    fun k => interpFields_alookup mp _ k, fun n => ?_⟩
  rw [interpObj]
  exact interpFields_unbound mp _ n

/-- C5 witness: the characterization applied at a concrete composite
with one Empty field and one present placeholder field. -/
theorem interpolate_of_struct_witness :
    (interpObj (Obj.strct "T" exSchemaOpt
        [("a", some (Obj.str [Chunk.ref "b"] [])), ("b", none)] []) []).1 =
      Obj.strct "T" exSchemaOpt
        (interpFields [("a", some (Obj.str [Chunk.ref "b"] [])), ("b", none)]
          (selfFrame [("a", some (Obj.str [Chunk.ref "b"] [])), ("b", none)] :: ([] ++ []))).1
        [] ∧
    alookup (interpFields [("a", some (Obj.str [Chunk.ref "b"] [])), ("b", none)]
        (selfFrame [("a", some (Obj.str [Chunk.ref "b"] [])), ("b", none)] :: ([] ++ []))).1 "b" =
      (alookup [("a", some (Obj.str [Chunk.ref "b"] [])), ("b", none)] "b").map (fun fv =>
        fv.map (fun o => (interpObj o
          (selfFrame [("a", some (Obj.str [Chunk.ref "b"] [])), ("b", none)] :: ([] ++ []))).1)) :=
  ⟨(interpolate_of_struct "T" exSchemaOpt
      [("a", some (Obj.str [Chunk.ref "b"] [])), ("b", none)] [] []).1,
   (interpolate_of_struct "T" exSchemaOpt
      [("a", some (Obj.str [Chunk.ref "b"] [])), ("b", none)] [] []).2.2.1 "b"⟩

/-- C6: the case analysis of find. An exhausted or non-dereference first
segment is a naming error; a name outside the schema, or bound to Empty,
is not-found; an exhausted remaining path returns the field value placed
into the scope chain; a non-empty remaining path into a leaf value is
unnamable, and into a composite value recurses in the extended chain.
The three error outcomes are pairwise distinct values. -/
theorem find_case_analysis (nm : String) (sch : Schema) (mp : Mapping)
    (sc extra : List Frame) :
    (findObj (Obj.strct nm sch mp sc) extra [] = .error .namingError) ∧
    (∀ i rest, findObj (Obj.strct nm sch mp sc) extra (RefAction.index i :: rest) =
      .error .namingError) ∧
    (∀ n rest, alookup sch n = none →
      findObj (Obj.strct nm sch mp sc) extra (RefAction.deref n :: rest) =
        .error .notFound) ∧
    (∀ n rest sig, alookup sch n = some sig → alookup mp n = some none →
      findObj (Obj.strct nm sch mp sc) extra (RefAction.deref n :: rest) =
        .error .notFound) ∧
    (∀ n sig o, alookup sch n = some sig → alookup mp n = some (some o) →
      findObj (Obj.strct nm sch mp sc) extra [RefAction.deref n] =
        .ok (inScope o (selfFrame mp :: (sc ++ extra)))) ∧
    (∀ n sig t s2 r2 rrest, alookup sch n = some sig →
      alookup mp n = some (some (Obj.str t s2)) →
      findObj (Obj.strct nm sch mp sc) extra (RefAction.deref n :: r2 :: rrest) =
        .error .unnamable) ∧
    (∀ n sig nm2 sch2 mp2 sc2 r2 rrest, alookup sch n = some sig →
      alookup mp n = some (some (Obj.strct nm2 sch2 mp2 sc2)) →
      findObj (Obj.strct nm sch mp sc) extra (RefAction.deref n :: r2 :: rrest) =
        findObj (Obj.strct nm2 sch2 mp2 sc2) (selfFrame mp :: (sc ++ extra)) (r2 :: rrest)) ∧
    ((FindError.namingError ≠ FindError.notFound) ∧
     (FindError.namingError ≠ FindError.unnamable) ∧
     (FindError.notFound ≠ FindError.unnamable)) := by
  refine ⟨by rw [findObj], fun i rest => by rw [findObj], ?_, ?_, ?_, ?_, ?_,
    by simp, by simp, by simp⟩
  · intro n rest hn
    rw [findObj]
    simp [hn]
  · intro n rest sig hn hm
    rw [findObj]
    simp [hn, hm]
  · intro n sig o hn hm
    rw [findObj]
    simp [hn, hm]
  · intro n sig t s2 r2 rrest hn hm
    rw [findObj]
    simp [hn, hm]
  · intro n sig nm2 sch2 mp2 sc2 r2 rrest hn hm
    rw [findObj]
    simp [hn, hm]

/-- C6 witness: find applied at a concrete nested composite — a
successful one-segment lookup and a not-found miss. -/
theorem find_case_analysis_witness :
    findObj (Obj.strct "T" exSchemaOpt
        [("a", some (Obj.str [Chunk.text "v"] [])), ("b", none)] []) [] [RefAction.deref "a"] =
      .ok (inScope (Obj.str [Chunk.text "v"] [])
        (selfFrame [("a", some (Obj.str [Chunk.text "v"] [])), ("b", none)] :: ([] ++ []))) ∧
    findObj (Obj.strct "T" exSchemaOpt
        [("a", some (Obj.str [Chunk.text "v"] [])), ("b", none)] []) [] [RefAction.deref "zz"] =
      .error .notFound ∧
    findObj (Obj.strct "T" exSchemaOpt
        [("a", some (Obj.str [Chunk.text "v"] [])), ("b", none)] []) []
        (RefAction.index "0" :: [RefAction.deref "a"]) = .error .namingError :=
  ⟨(find_case_analysis "T" exSchemaOpt
      [("a", some (Obj.str [Chunk.text "v"] [])), ("b", none)] [] []).2.2.2.2.1 "a"
      (TypeSig.mk .simple false none) (Obj.str [Chunk.text "v"] [])
      (by simp [alookup, exSchemaOpt]) (by simp [alookup]),
   (find_case_analysis "T" exSchemaOpt
      [("a", some (Obj.str [Chunk.text "v"] [])), ("b", none)] [] []).2.2.1 "zz"
      [] (by simp [alookup, exSchemaOpt]),
   (find_case_analysis "T" exSchemaOpt
      [("a", some (Obj.str [Chunk.text "v"] [])), ("b", none)] [] []).2.1 "0"
      [RefAction.deref "a"]⟩

/-- C10: equality of composite values. Comparison against a
non-composite value is false (and total — never an error, by the type of
structEq); comparison of two composite values holds exactly when their
TYPEMAPs agree (order-insensitively, by canonical serialized form) and
their fully interpolated field mappings agree, so the attached scope
frames enter only through the interpolation they induce; concretely, two
values whose raw fields differ only in placeholder text that
interpolates to the same result compare equal. -/
theorem equality_by_interpolation :
    (∀ nm sch mp sc t s2, structEq (Obj.strct nm sch mp sc) (Obj.str t s2) = false) ∧
    (∀ nm sch mp sc nm2 sch2 mp2 sc2,
      structEq (Obj.strct nm sch mp sc) (Obj.strct nm2 sch2 mp2 sc2) = true ↔
        (typemapEq sch sch2 = true ∧
         fieldMapEq (getMapping (interpObj (Obj.strct nm sch mp sc) []).1)
                    (getMapping (interpObj (Obj.strct nm2 sch2 mp2 sc2) []).1) = true)) ∧
    structEq
      (Obj.strct "Pair" exSchemaOpt
        [("a", some (Obj.str [Chunk.ref "b"] [])),
         ("b", some (Obj.str [Chunk.text "x"] []))] [])
      (Obj.strct "Pair" exSchemaOpt
        [("a", some (Obj.str [Chunk.text "x"] [])),
         ("b", some (Obj.str [Chunk.text "x"] []))] []) = true := by
  refine ⟨fun nm sch mp sc t s2 => by simp [structEq], ?_, ?_⟩
  · intro nm sch mp sc nm2 sch2 mp2 sc2
    rw [structEq]
    by_cases ht : typemapEq sch sch2
    · simp [ht]
    · simp [ht]
  · simp [structEq, typemapEq, canonSchema, canonSig, canonFType, sortByKey, insertByKey,
      beqSchemaList, beqTypeSig, beqFType, exSchemaOpt, interpObj, interpFields,
      interpTemplate, resolveRef, lookupChain, alookup, selfFrame, normTemplate,
      getMapping, fieldMapEq, keysIncl, valsMatch, fieldValEq, objEqStructural]

/-- C1 witness: the cycle rule applied at a concrete name already being
resolved. -/
theorem interpolate_cycle_safe_witness :
    resolveRef [] {"x"} "x" = none ∧
    interpTemplate [] ({"x"} : Finset String) [Chunk.ref "x"] =
      (Chunk.ref "x" :: (interpTemplate [] {"x"} []).1,
       insert "x" (interpTemplate [] {"x"} []).2) :=
  ⟨interpolate_cycle_safe.1 [] {"x"} "x" (by simp),
   interpolate_cycle_safe.2.1 [] {"x"} "x" [] (by simp)⟩

end PystachioModel
